import Mathlib

/-!
Shallow embedding of `src/misc/split_bam_by_tag.py`: a single-pass stream
classifier that splits a BAM file into two outputs based on one tag.

Tag values are modelled as lists of characters.  A record exposes only what
the script reads from it: an identity and the value of the queried tag when
present (`entry.has_tag` / `entry.get_tag`).  The mutable loop state holds
the counter list `n = [0, 0, 0]` (as three fields) and the sequences of
records written to each output file.  The Python `assert` inside `hamming`
is modelled by returning `none`, which aborts the run (AssertionError).
-/

/-- Command-line arguments relevant to the filtering loop
(`tag_value`, `--max_edit_dist`, `--discard_missing_tags`).
`tag_id` only selects which tag a record exposes, so it is folded into
the record model. -/
structure Args where
  tag_value : List Char
  max_edit_dist : Int
  discard_missing_tags : Bool
  deriving DecidableEq, Repr

/-- One alignment record, as seen by the script: an identity (position in
the original file is enough to make records distinguishable) and the value
of the queried tag, `none` when `entry.has_tag(args.tag_id)` is false. -/
structure SamRecord where
  rid : Nat
  tag : Option (List Char)
  deriving DecidableEq, Repr

/-- The sum expression of the script's `hamming`:
`sum(c1 != c2 for c1, c2 in zip(s1, s2))`. -/
def hammingCount (s1 s2 : List Char) : Nat :=
  (s1.zip s2).countP fun p => decide (p.1 ≠ p.2)

/-- Python `hamming(s1, s2)`: `assert len(s1) == len(s2)` then
`sum(c1 != c2 for c1, c2 in zip(s1, s2))`.  The failed assertion is
modelled as `none`. -/
def hamming (s1 s2 : List Char) : Option Nat :=
  if s1.length = s2.length then
    some (hammingCount s1 s2)
  else
    none

/-- Mutable state of the main loop: the counter list `n = [0, 0, 0]`
(`n0` = discarded-missing, `n1` = no-match, `n2` = match) and the record
sequences written so far to `outfile_1` and `outfile_2`. -/
structure LoopState where
  n0 : Nat
  n1 : Nat
  n2 : Nat
  out1 : List SamRecord
  out2 : List SamRecord
  deriving DecidableEq, Repr

/-- State before the loop: `n = [0, 0, 0]`, nothing written yet. -/
def initState : LoopState :=
  { n0 := 0, n1 := 0, n2 := 0, out1 := [], out2 := [] }

/-- Body of `for entry in infile.fetch(until_eof=True)`, transliterated
branch by branch; `none` models the AssertionError raised inside
`hamming` when tag-value and target lengths differ. -/
def processEntry (a : Args) (s : LoopState) (entry : SamRecord) :
    Option LoopState :=
  match entry.tag with
  | none =>
    if a.discard_missing_tags then
      some { s with n0 := s.n0 + 1 }
    else
      some { s with out2 := s.out2 ++ [entry], n1 := s.n1 + 1 }
  | some value_of_tag =>
    if a.max_edit_dist > 0 then
      match hamming a.tag_value value_of_tag with
      | none => none
      | some edit_dist =>
        if (edit_dist : Int) ≤ a.max_edit_dist then
          some { s with out1 := s.out1 ++ [entry], n2 := s.n2 + 1 }
        else
          some { s with out2 := s.out2 ++ [entry], n1 := s.n1 + 1 }
    else
      if value_of_tag = a.tag_value then
        some { s with out1 := s.out1 ++ [entry], n2 := s.n2 + 1 }
      else
        some { s with out2 := s.out2 ++ [entry], n1 := s.n1 + 1 }

/-- The main loop over the input stream.  On an AssertionError the run
aborts; the `error` value carries the loop state at the moment of the
abort (everything already written stays written). -/
def runLoop (a : Args) (s : LoopState) :
    List SamRecord → Except LoopState LoopState
  | [] => .ok s
  | e :: rest =>
    match processEntry a s e with
    | none => .error s
    | some s' => runLoop a s' rest

/-- The four summary lines printed on normal completion
(lines 96 through 99 of the script): `sum(n)`, `n[0]`, `n[1]`, `n[2]`
together with the `max_edit_dist` echoed on the last line. -/
structure Summary where
  processed : Nat
  missing : Nat
  nonMatching : Nat
  matched : Nat
  editDist : Int
  deriving DecidableEq, Repr

/-- The three streams opened by the script. -/
inductive StreamId where
  | infile
  | outfile1
  | outfile2
  deriving DecidableEq, Repr

/-- Observable outcome of one run: final loop state, whether the process
exited with status 0, the summary printed to stdout (`none` when the run
aborted before reaching the prints), and the streams explicitly closed,
in order.  The script calls only `infile.close()` (line 94), and an
AssertionError propagates past it, so nothing is closed on the abort
path. -/
structure RunOutcome where
  st : LoopState
  exitZero : Bool
  summary : Option Summary
  closed : List StreamId
  deriving DecidableEq, Repr

/-- Whole program after the streams are opened: run the loop, then close
the input and print the summary (normal path), or propagate the
AssertionError (abort path: non-zero exit, no summary, no closes). -/
def runProgram (a : Args) (entries : List SamRecord) : RunOutcome :=
  match runLoop a initState entries with
  | .ok s =>
    { st := s
      exitZero := true
      summary := some
        { processed := s.n0 + s.n1 + s.n2
          missing := s.n0
          nonMatching := s.n1
          matched := s.n2
          editDist := a.max_edit_dist }
      closed := [StreamId.infile] }
  | .error s =>
    { st := s, exitZero := false, summary := none, closed := [] }

/-- The three possible per-record outcomes of the spec. -/
inductive Outcome where
  | discard
  | noMatch
  | matched
  deriving DecidableEq, Repr

/-- Per-record classification, read off the branch structure of the loop
body; `none` is the fatal length-mismatch abort. -/
def classify (a : Args) (e : SamRecord) : Option Outcome :=
  match e.tag with
  | none =>
    if a.discard_missing_tags then some .discard else some .noMatch
  | some v =>
    if a.max_edit_dist > 0 then
      match hamming a.tag_value v with
      | none => none
      | some d =>
        if (d : Int) ≤ a.max_edit_dist then some .matched else some .noMatch
    else
      if v = a.tag_value then some .matched else some .noMatch

/-! Helper lemmas about one loop iteration. -/

/-- Each successfully processed record bumps exactly one of the three
counters by one and leaves the other two untouched. -/
lemma processEntry_counters (a : Args) (s : LoopState) (e : SamRecord)
    (s' : LoopState) (h : processEntry a s e = some s') :
    (s'.n0 = s.n0 + 1 ∧ s'.n1 = s.n1 ∧ s'.n2 = s.n2) ∨
    (s'.n1 = s.n1 + 1 ∧ s'.n0 = s.n0 ∧ s'.n2 = s.n2) ∨
    (s'.n2 = s.n2 + 1 ∧ s'.n0 = s.n0 ∧ s'.n1 = s.n1) := by
  rcases e with ⟨r, _ | v⟩ <;> simp only [processEntry] at h
  · split at h <;> (cases h; simp)
  · split at h
    · split at h
      · cases h
      · split at h <;> (cases h; simp)
    · split at h <;> (cases h; simp)

/-- Counter sum after the whole loop, generalized over the start state. -/
lemma runLoop_sum (a : Args) :
    ∀ (entries : List SamRecord) (s0 s : LoopState),
      runLoop a s0 entries = .ok s →
      s.n0 + s.n1 + s.n2 = s0.n0 + s0.n1 + s0.n2 + entries.length
  | [], s0, s, h => by
    simp only [runLoop] at h
    cases h
    simp
  | e :: rest, s0, s, h => by
    simp only [runLoop] at h
    cases hp : processEntry a s0 e with
    | none => rw [hp] at h; cases h
    | some s1 =>
      rw [hp] at h
      have h1 := processEntry_counters a s0 e s1 hp
      have h2 := runLoop_sum a rest s1 s h
      simp only [List.length_cons]
      omega

/-- Side effects of a Match outcome: write the record to `outfile_1` and
increment `n[2]`. -/
def matchUpdate (s : LoopState) (e : SamRecord) : LoopState :=
  { s with out1 := s.out1 ++ [e], n2 := s.n2 + 1 }

/-- Side effects of a NoMatch outcome: write the record to `outfile_2` and
increment `n[1]`. -/
def noMatchUpdate (s : LoopState) (e : SamRecord) : LoopState :=
  { s with out2 := s.out2 ++ [e], n1 := s.n1 + 1 }

/-- Side effects of a Discard outcome: increment `n[0]`, write nothing. -/
def discardUpdate (s : LoopState) : LoopState :=
  { s with n0 := s.n0 + 1 }

/-- Concrete arguments: target value `"A"`, exact match, keep missing. -/
def argsA : Args :=
  { tag_value := ['A'], max_edit_dist := 0, discard_missing_tags := false }

/-- Concrete arguments: target value `"A"`, exact match, discard missing. -/
def argsDiscard : Args :=
  { tag_value := ['A'], max_edit_dist := 0, discard_missing_tags := true }

/-- Concrete arguments: target value `"AC"`, one mismatch allowed. -/
def argsH : Args :=
  { tag_value := ['A', 'C'], max_edit_dist := 1, discard_missing_tags := false }

/-- Concrete record without the tag. -/
def recMissing : SamRecord := { rid := 0, tag := none }

/-- Concrete record with tag value `"A"`. -/
def recA : SamRecord := { rid := 1, tag := some ['A'] }

/-- Concrete record with tag value `"B"`. -/
def recB : SamRecord := { rid := 2, tag := some ['B'] }

/-- Concrete record with tag value `"AG"`. -/
def recAG : SamRecord := { rid := 3, tag := some ['A', 'G'] }

/-- Concrete record with the length-3 tag value `"ABC"`. -/
def recABC : SamRecord := { rid := 4, tag := some ['A', 'B', 'C'] }

/-- C2: after every processed record the three counters sum to one more
than before (exactly one counter is incremented, exactly once), and on
normal completion of the loop the discard + no-match + match counters sum
to the total number of records read. -/
theorem counter_sum_invariant (a : Args) :
    (∀ (s : LoopState) (e : SamRecord) (s' : LoopState),
        processEntry a s e = some s' →
        (s'.n0 + s'.n1 + s'.n2 = s.n0 + s.n1 + s.n2 + 1) ∧
        ((s'.n0 = s.n0 + 1 ∧ s'.n1 = s.n1 ∧ s'.n2 = s.n2) ∨
         (s'.n1 = s.n1 + 1 ∧ s'.n0 = s.n0 ∧ s'.n2 = s.n2) ∨
         (s'.n2 = s.n2 + 1 ∧ s'.n0 = s.n0 ∧ s'.n1 = s.n1))) ∧
    (∀ (entries : List SamRecord) (s : LoopState),
        runLoop a initState entries = .ok s →
        s.n0 + s.n1 + s.n2 = entries.length) := by
  constructor
  · intro s e s' h
    have h1 := processEntry_counters a s e s' h
    exact ⟨by omega, h1⟩
  · intro entries s h
    have h2 := runLoop_sum a entries initState s h
    simpa [initState] using h2

/-- Concrete final state of running `argsA` on
`[recMissing, recA, recB]`. -/
def sFinalA : LoopState :=
  { n0 := 0, n1 := 2, n2 := 1, out1 := [recA], out2 := [recMissing, recB] }

/-- Witness for `counter_sum_invariant` on a concrete three-record run. -/
theorem counter_sum_invariant_witness :
    sFinalA.n0 + sFinalA.n1 + sFinalA.n2 = 3 :=
  (counter_sum_invariant argsA).2 [recMissing, recA, recB] sFinalA (by rfl)

/-- C3: a record without the tag is discarded (counted only in `n[0]`,
written nowhere) when `discard_missing_tags` is set, and otherwise is
written unchanged to `outfile_2` (never to `outfile_1`) with `n[1]`
incremented. -/
theorem missing_tag_routing (a : Args) (s : LoopState) (e : SamRecord)
    (h : e.tag = none) :
    (a.discard_missing_tags = true →
      processEntry a s e = some (discardUpdate s)) ∧
    (a.discard_missing_tags = false →
      processEntry a s e = some (noMatchUpdate s e)) := by
  rcases e with ⟨r, tag⟩
  cases h
  constructor <;> intro hd <;>
    simp [processEntry, hd, discardUpdate, noMatchUpdate]

/-- Witness for `missing_tag_routing`, in both flag settings. -/
theorem missing_tag_routing_witness :
    processEntry argsDiscard initState recMissing =
      some (discardUpdate initState) ∧
    processEntry argsA initState recMissing =
      some (noMatchUpdate initState recMissing) :=
  ⟨(missing_tag_routing argsDiscard initState recMissing rfl).1 rfl,
   (missing_tag_routing argsA initState recMissing rfl).2 rfl⟩

/-- C4: with `max_edit_dist = 0` a record carrying the tag goes to
`outfile_1` (with `n[2]` incremented) exactly when its tag value equals
the target value, and to `outfile_2` (with `n[1]` incremented)
otherwise. -/
theorem exact_match_routing (a : Args) (s : LoopState) (e : SamRecord)
    (v : List Char) (hk : a.max_edit_dist = 0) (h : e.tag = some v) :
    processEntry a s e =
      some (if v = a.tag_value then matchUpdate s e
            else noMatchUpdate s e) := by
  rcases e with ⟨r, tag⟩
  cases h
  simp only [processEntry, hk]
  norm_num
  split <;> simp [matchUpdate, noMatchUpdate]

/-- Witness for `exact_match_routing`: an equal and an unequal tag. -/
theorem exact_match_routing_witness :
    (processEntry argsA initState recA =
      some (if ['A'] = argsA.tag_value then matchUpdate initState recA
            else noMatchUpdate initState recA)) ∧
    (processEntry argsA initState recB =
      some (if ['B'] = argsA.tag_value then matchUpdate initState recB
            else noMatchUpdate initState recB)) :=
  ⟨exact_match_routing argsA initState recA ['A'] rfl rfl,
   exact_match_routing argsA initState recB ['B'] rfl rfl⟩

/-- The mismatch count over a zip is symmetric in the two sequences. -/
lemma hammingCount_comm :
    ∀ s1 s2 : List Char, hammingCount s1 s2 = hammingCount s2 s1
  | [], l => by cases l <;> simp [hammingCount]
  | a :: t, [] => by simp [hammingCount]
  | a :: t1, b :: t2 => by
    have ih := hammingCount_comm t1 t2
    simp only [hammingCount, List.zip_cons_cons, List.countP_cons] at ih ⊢
    rw [ih]
    congr 1
    by_cases hab : a = b <;> simp [hab, Ne, eq_comm]

/-- The script's guarded `hamming` is symmetric as well. -/
lemma hamming_comm (s1 s2 : List Char) : hamming s1 s2 = hamming s2 s1 := by
  unfold hamming
  by_cases h : s1.length = s2.length
  · rw [if_pos h, if_pos h.symm, hammingCount_comm]
  · rw [if_neg h, if_neg fun hh => h hh.symm]

/-- C5: with `max_edit_dist = k > 0` and a tag value of the same length
as the target, `hamming` succeeds, and the record goes to `outfile_1`
(incrementing `n[2]`) exactly when the Hamming distance between tag value
and target is at most `k`, else to `outfile_2` (incrementing `n[1]`). -/
theorem hamming_match_routing (a : Args) (s : LoopState) (e : SamRecord)
    (v : List Char) (hk : a.max_edit_dist > 0) (h : e.tag = some v)
    (hlen : v.length = a.tag_value.length) :
    hamming v a.tag_value = some (hammingCount v a.tag_value) ∧
    processEntry a s e =
      some (if (hammingCount v a.tag_value : Int) ≤ a.max_edit_dist
            then matchUpdate s e else noMatchUpdate s e) := by
  rcases e with ⟨r, tag⟩
  cases h
  have hsome : hamming a.tag_value v = some (hammingCount v a.tag_value) := by
    rw [hamming_comm]
    unfold hamming
    rw [if_pos hlen]
  refine ⟨?_, ?_⟩
  · unfold hamming
    rw [if_pos hlen]
  · simp only [processEntry]
    rw [if_pos hk, hsome]
    dsimp only
    split <;> simp [matchUpdate, noMatchUpdate]

/-- Witness for `hamming_match_routing`: target `"AC"`, tag `"AG"`,
threshold 1. -/
theorem hamming_match_routing_witness :
    hamming ['A', 'G'] argsH.tag_value =
      some (hammingCount ['A', 'G'] argsH.tag_value) ∧
    processEntry argsH initState recAG =
      some (if (hammingCount ['A', 'G'] argsH.tag_value : Int) ≤
              argsH.max_edit_dist
            then matchUpdate initState recAG
            else noMatchUpdate initState recAG) :=
  hamming_match_routing argsH initState recAG ['A', 'G']
    (by decide) rfl (by decide)

/-- On equal-length inputs the zip mismatch count is the number of index
positions at which the two sequences differ. -/
lemma hammingCount_eq_diff_positions :
    ∀ s1 s2 : List Char, s1.length = s2.length →
      hammingCount s1 s2 =
        (List.range s1.length).countP
          fun i => decide (s1.get? i ≠ s2.get? i)
  | [], [], _ => by simp [hammingCount]
  | [], b :: t2, h => by simp at h
  | a :: t1, [], h => by simp at h
  | a :: t1, b :: t2, h => by
    have hlen : t1.length = t2.length := by simpa using h
    have ih := hammingCount_eq_diff_positions t1 t2 hlen
    simp only [hammingCount, List.zip_cons_cons, List.countP_cons] at ih ⊢
    rw [ih, List.length_cons, List.range_succ_eq_map, List.countP_cons,
      List.countP_map]
    have hcongr :
        List.countP
            (fun i => decide (t1.get? i ≠ t2.get? i)) (List.range t1.length) =
          List.countP
            ((fun i => decide ((a :: t1).get? i ≠ (b :: t2).get? i)) ∘
              Nat.succ) (List.range t1.length) := by
      refine List.countP_congr ?_
      intro i _
      simp [Function.comp, List.get?_cons_succ]
    rw [← hcongr]
    have hzero :
        (decide ((a :: t1).get? 0 ≠ (b :: t2).get? 0)) = decide (a ≠ b) := by
      simp
    rw [hzero]

/-- The mismatch count never exceeds the first sequence's length. -/
lemma hammingCount_le_length (s1 s2 : List Char) :
    hammingCount s1 s2 ≤ s1.length := by
  calc hammingCount s1 s2 ≤ (s1.zip s2).length := List.countP_le_length _
    _ ≤ s1.length := by rw [List.length_zip]; omega

/-- A sequence has no mismatches with itself. -/
lemma hammingCount_self : ∀ s : List Char, hammingCount s s = 0
  | [] => rfl
  | a :: t => by
    have ih := hammingCount_self t
    simp only [hammingCount, List.zip_cons_cons, List.countP_cons] at ih ⊢
    rw [ih]
    simp

/-- C6: on equal-length inputs `hamming` returns the count of index
positions at which the elements differ (hence `hamming s s = some 0` and
the result is bounded by the length), and on unequal-length inputs it
returns no value (the assertion fails). -/
theorem hamming_spec :
    (∀ s1 s2 : List Char, s1.length = s2.length →
        hamming s1 s2 =
          some ((List.range s1.length).countP
            fun i => decide (s1.get? i ≠ s2.get? i))) ∧
    (∀ s : List Char, hamming s s = some 0) ∧
    (∀ (s1 s2 : List Char) (d : Nat), hamming s1 s2 = some d →
        d ≤ s1.length) ∧
    (∀ s1 s2 : List Char, s1.length ≠ s2.length → hamming s1 s2 = none) := by
  refine ⟨?_, ?_, ?_, ?_⟩
  · intro s1 s2 h
    unfold hamming
    rw [if_pos h, hammingCount_eq_diff_positions s1 s2 h]
  · intro s
    unfold hamming
    rw [if_pos rfl, hammingCount_self]
  · intro s1 s2 d h
    unfold hamming at h
    split at h
    · cases h
      exact hammingCount_le_length s1 s2
    · cases h
  · intro s1 s2 h
    unfold hamming
    rw [if_neg h]

/-- Witness for `hamming_spec`: distance of `"AC"` versus `"AG"`, and the
assertion failure on `"AC"` versus `"ABC"`. -/
theorem hamming_spec_witness :
    (hamming ['A', 'C'] ['A', 'G'] =
      some ((List.range (['A', 'C'] : List Char).length).countP
        fun i => decide ((['A', 'C'] : List Char).get? i ≠
          (['A', 'G'] : List Char).get? i))) ∧
    hamming ['A', 'C'] ['A', 'B', 'C'] = none :=
  ⟨hamming_spec.1 ['A', 'C'] ['A', 'G'] rfl,
   hamming_spec.2.2.2 ['A', 'C'] ['A', 'B', 'C'] (by decide)⟩

/-- One loop iteration, expressed through the per-record outcome. -/
lemma processEntry_classify (a : Args) (s : LoopState) (e : SamRecord) :
    processEntry a s e =
      match classify a e with
      | some .discard => some (discardUpdate s)
      | some .noMatch => some (noMatchUpdate s e)
      | some .matched => some (matchUpdate s e)
      | none => none := by
  rcases e with ⟨r, _ | v⟩ <;> simp only [processEntry, classify]
  · split <;> rfl
  · split
    · cases hh : hamming a.tag_value v
      · rfl
      · dsimp only
        split <;> rfl
    · split <;> rfl

/-- Output sequences after the whole loop, generalized over the start
state: each output extends the starting output by the input records with
the corresponding outcome, in input order. -/
lemma runLoop_outputs (a : Args) :
    ∀ (entries : List SamRecord) (s0 s : LoopState),
      runLoop a s0 entries = .ok s →
      s.out1 = s0.out1 ++
        entries.filter (fun e => decide (classify a e = some .matched)) ∧
      s.out2 = s0.out2 ++
        entries.filter (fun e => decide (classify a e = some .noMatch))
  | [], s0, s, h => by
    simp only [runLoop] at h
    cases h
    simp
  | e :: rest, s0, s, h => by
    simp only [runLoop] at h
    rw [processEntry_classify a s0 e] at h
    cases hc : classify a e with
    | none => rw [hc] at h; cases h
    | some o =>
      rw [hc] at h
      cases o <;> dsimp only at h
      · have ih := runLoop_outputs a rest (discardUpdate s0) s h
        simpa [hc, discardUpdate] using ih
      · have ih := runLoop_outputs a rest (noMatchUpdate s0 e) s h
        simpa [hc, noMatchUpdate] using ih
      · have ih := runLoop_outputs a rest (matchUpdate s0 e) s h
        simpa [hc, matchUpdate] using ih

/-- C7: on normal completion, `outfile_1` holds exactly the input records
classified Match, in input order, and `outfile_2` exactly the records
classified NoMatch, in input order. -/
theorem order_preservation (a : Args) (entries : List SamRecord)
    (s : LoopState) (h : runLoop a initState entries = .ok s) :
    s.out1 =
      entries.filter (fun e => decide (classify a e = some .matched)) ∧
    s.out2 =
      entries.filter (fun e => decide (classify a e = some .noMatch)) := by
  have h2 := runLoop_outputs a entries initState s h
  simpa [initState] using h2

/-- Witness for `order_preservation` on a concrete three-record run. -/
theorem order_preservation_witness :
    sFinalA.out1 =
      [recMissing, recA, recB].filter
        (fun e => decide (classify argsA e = some .matched)) ∧
    sFinalA.out2 =
      [recMissing, recA, recB].filter
        (fun e => decide (classify argsA e = some .noMatch)) :=
  order_preservation argsA [recMissing, recA, recB] sFinalA (by rfl)

/-- The loop over a concatenation runs the first part, then continues
from its final state; an abort in the first part is final. -/
lemma runLoop_append (a : Args) :
    ∀ (l1 l2 : List SamRecord) (s : LoopState),
      runLoop a s (l1 ++ l2) =
        match runLoop a s l1 with
        | .ok s' => runLoop a s' l2
        | .error s' => .error s'
  | [], l2, s => by simp only [List.nil_append, runLoop]
  | e :: t, l2, s => by
    simp only [List.cons_append, runLoop]
    cases processEntry a s e with
    | none => rfl
    | some s1 => exact runLoop_append a t l2 s1

/-- C8: with `max_edit_dist > 0`, the first record whose tag value length
differs from the target length makes the run abort there: non-zero exit,
no summary printed, nothing closed, and the outputs are exactly those of
the run on the preceding records. -/
theorem length_mismatch_aborts (a : Args) (pre : List SamRecord)
    (bad : SamRecord) (rest : List SamRecord) (v : List Char)
    (s : LoopState) (hk : a.max_edit_dist > 0) (htag : bad.tag = some v)
    (hlen : v.length ≠ a.tag_value.length)
    (hpre : runLoop a initState pre = .ok s) :
    runProgram a (pre ++ bad :: rest) =
      { st := s, exitZero := false, summary := none, closed := [] } := by
  have hnone : processEntry a s bad = none := by
    rcases bad with ⟨r, tag⟩
    cases htag
    simp only [processEntry]
    rw [if_pos hk]
    have hham : hamming a.tag_value v = none := by
      unfold hamming
      rw [if_neg fun hh => hlen hh.symm]
    rw [hham]
  unfold runProgram
  rw [runLoop_append a pre (bad :: rest) initState, hpre]
  simp only [runLoop, hnone]

/-- Witness for `length_mismatch_aborts`: target `"AC"`, threshold 1, one
good record `"AG"` then the length-3 record `"ABC"`. -/
theorem length_mismatch_aborts_witness :
    runProgram argsH ([recAG] ++ recABC :: []) =
      { st := { n0 := 0, n1 := 0, n2 := 1, out1 := [recAG], out2 := [] }
        exitZero := false
        summary := none
        closed := [] } :=
  length_mismatch_aborts argsH [recAG] recABC [] ['A', 'B', 'C']
    { n0 := 0, n1 := 0, n2 := 1, out1 := [recAG], out2 := [] }
    (by decide) rfl (by decide) (by rfl)

/-- C9 counterexample shape, amended: the script never closes either
output stream, and closes the input stream only on normal completion. -/
theorem streams_closed_amended (a : Args) (entries : List SamRecord) :
    StreamId.outfile1 ∉ (runProgram a entries).closed ∧
    StreamId.outfile2 ∉ (runProgram a entries).closed ∧
    (runProgram a entries).closed =
      (if (runProgram a entries).exitZero then [StreamId.infile]
       else []) := by
  unfold runProgram
  cases runLoop a initState entries <;> simp

/-- Counterexample to C9: on a normally completing empty run, the first
output stream is not among the closed streams. -/
theorem streams_closed_counterexample :
    (runProgram argsA []).exitZero = true ∧
    StreamId.outfile1 ∉ (runProgram argsA []).closed := by decide

/-- A processed record bumps `n[0]` exactly when it lacks the tag and the
discard flag is set. -/
lemma processEntry_n0 (a : Args) (s : LoopState) (e : SamRecord)
    (s' : LoopState) (h : processEntry a s e = some s') :
    s'.n0 = s.n0 +
      (if a.discard_missing_tags ∧ e.tag = none then 1 else 0) := by
  rcases e with ⟨r, _ | v⟩ <;> simp only [processEntry] at h
  · split at h <;> (cases h; simp_all)
  · split at h
    · split at h
      · cases h
      · split at h <;> (cases h; simp)
    · split at h <;> (cases h; simp)

/-- Final value of `n[0]`, generalized over the start state: the number
of tag-absent records when the discard flag is set, zero otherwise. -/
lemma runLoop_n0 (a : Args) :
    ∀ (entries : List SamRecord) (s0 s : LoopState),
      runLoop a s0 entries = .ok s →
      s.n0 = s0.n0 +
        (if a.discard_missing_tags then
          entries.countP (fun e => e.tag.isNone) else 0)
  | [], s0, s, h => by
    simp only [runLoop] at h
    cases h
    split <;> simp
  | e :: rest, s0, s, h => by
    simp only [runLoop] at h
    cases hp : processEntry a s0 e with
    | none => rw [hp] at h; cases h
    | some s1 =>
      rw [hp] at h
      have h1 := processEntry_n0 a s0 e s1 hp
      have h2 := runLoop_n0 a rest s1 s h
      rw [h2, h1]
      simp only [List.countP_cons]
      rcases e with ⟨r, _ | v⟩ <;>
        by_cases hd : a.discard_missing_tags <;> simp [hd] <;> omega

/-- C1 amended: on normal completion the four summary lines are printed,
but the second line reports the discard counter `n[0]`: it equals the
number of tag-absent records only when the discard flag is set, and is
zero otherwise (tag-absent records then count into the third line). -/
theorem summary_lines_amended (a : Args) (entries : List SamRecord)
    (s : LoopState) (h : runLoop a initState entries = .ok s) :
    (runProgram a entries).summary =
      some { processed := s.n0 + s.n1 + s.n2, missing := s.n0,
             nonMatching := s.n1, matched := s.n2,
             editDist := a.max_edit_dist } ∧
    s.n0 = (if a.discard_missing_tags then
              entries.countP (fun e => e.tag.isNone) else 0) := by
  constructor
  · unfold runProgram
    rw [h]
  · have h2 := runLoop_n0 a entries initState s h
    simpa [initState] using h2

/-- Concrete final state of running `argsDiscard` on
`[recMissing, recA]`. -/
def sFinalD : LoopState :=
  { n0 := 1, n1 := 0, n2 := 1, out1 := [recA], out2 := [] }

/-- Witness for `summary_lines_amended` with the discard flag set. -/
theorem summary_lines_amended_witness :
    (runProgram argsDiscard [recMissing, recA]).summary =
      some { processed := sFinalD.n0 + sFinalD.n1 + sFinalD.n2,
             missing := sFinalD.n0, nonMatching := sFinalD.n1,
             matched := sFinalD.n2,
             editDist := argsDiscard.max_edit_dist } ∧
    sFinalD.n0 = (if argsDiscard.discard_missing_tags then
        [recMissing, recA].countP (fun e => e.tag.isNone) else 0) :=
  summary_lines_amended argsDiscard [recMissing, recA] sFinalD (by rfl)

/-- Counterexample to C1 as stated: with the discard flag off and one
tag-absent record, the run completes normally but the printed second line
is 0, not the number of tag-absent records (1). -/
theorem summary_missing_line_counterexample :
    argsA.discard_missing_tags = false ∧
    (runProgram argsA [recMissing]).exitZero = true ∧
    ¬ ((runProgram argsA [recMissing]).summary.map Summary.missing =
        some ([recMissing].countP fun e => e.tag.isNone)) := by decide

/-- With a non-positive threshold the length assertion is unreachable:
every record is processed without aborting. -/
lemma processEntry_total_of_nonpos (a : Args)
    (hk : a.max_edit_dist ≤ 0) (s : LoopState) (e : SamRecord) :
    ∃ s', processEntry a s e = some s' := by
  rcases e with ⟨r, _ | v⟩ <;> simp only [processEntry]
  · split <;> exact ⟨_, rfl⟩
  · rw [if_neg (by omega)]
    split <;> exact ⟨_, rfl⟩

/-- With a non-positive threshold the whole loop always completes. -/
lemma runLoop_total_of_nonpos (a : Args) (hk : a.max_edit_dist ≤ 0) :
    ∀ (entries : List SamRecord) (s : LoopState),
      ∃ s', runLoop a s entries = .ok s'
  | [], s => ⟨s, rfl⟩
  | e :: t, s => by
    obtain ⟨s1, h1⟩ := processEntry_total_of_nonpos a hk s e
    obtain ⟨s2, h2⟩ := runLoop_total_of_nonpos a hk t s1
    refine ⟨s2, ?_⟩
    simp only [runLoop, h1]
    exact h2

/-- Concrete arguments with a negative threshold. -/
def argsNeg : Args :=
  { tag_value := ['A', 'C'], max_edit_dist := -1,
    discard_missing_tags := false }

/-- C10: for `max_edit_dist ≤ 0` (default 0 and negative values alike)
the tool is in exact-match mode: a tagged record is routed by byte
equality, a tag value of different length from the target is a NoMatch
routed to `outfile_2` rather than a fatal error, and the loop never
aborts. -/
theorem nonpositive_edit_dist_exact (a : Args) (s : LoopState)
    (e : SamRecord) (v : List Char) (entries : List SamRecord)
    (hk : a.max_edit_dist ≤ 0) :
    (e.tag = some v →
      processEntry a s e =
        some (if v = a.tag_value then matchUpdate s e
              else noMatchUpdate s e)) ∧
    (e.tag = some v → v.length ≠ a.tag_value.length →
      processEntry a s e = some (noMatchUpdate s e)) ∧
    (∃ s', runLoop a s entries = .ok s') := by
  refine ⟨?_, ?_, runLoop_total_of_nonpos a hk entries s⟩
  · intro h
    rcases e with ⟨r, tag⟩
    cases h
    simp only [processEntry]
    rw [if_neg (by omega)]
    split <;> simp [matchUpdate, noMatchUpdate]
  · intro h hlen
    rcases e with ⟨r, tag⟩
    cases h
    simp only [processEntry]
    rw [if_neg (by omega)]
    have hne : v ≠ a.tag_value := fun hh => hlen (by rw [hh])
    rw [if_neg hne]
    simp [noMatchUpdate]

/-- Witness for `nonpositive_edit_dist_exact`: negative threshold, tag
value `"ABC"` against target `"AC"` goes to `outfile_2`. -/
theorem nonpositive_edit_dist_exact_witness :
    processEntry argsNeg initState recABC =
      some (noMatchUpdate initState recABC) :=
  (nonpositive_edit_dist_exact argsNeg initState recABC ['A', 'B', 'C']
    [] (by decide)).2.1 rfl (by decide)
